import Mathlib

/-!
# Verification of the essay-evaluator batch submission orchestrator

Shallow embedding of the submission/aggregation pipeline of the
essay-evaluator frontend, together with proofs about its behaviour:

* text segmentation (`splitEssaysText` in `EssayEvaluator.jsx`),
* rubric resolution (`processFile` / `processEssayBatch`),
* batch scheduling (`processUploadedFiles`),
* response normalisation and session-id handling
  (`handleSingleEssayResponseJson`, `handleMultipleEssaysResponse`,
  and the alternative component's `processItem`),
* result removal (`handleRemoveResult`),
* file-queue management (`FileUploadCard`),
* download-filename sanitisation (`handleDownload`).

Text is modelled as `List Char`; JavaScript truthiness of strings is
modelled by comparison with the empty string, absence of a JSON field by
`Option`, and the nondeterministic ids produced by `Date.now()` and
`Math.random()` by a fresh counter threaded through the run state.
-/

namespace EssayEval

/-- JavaScript whitespace (the `\s` character class and the characters
removed by `String.prototype.trim`). -/
def jsWS (c : Char) : Bool :=
  c = ' ' || c = '\t' || c = '\n' || c = '\r' || c = '\x0b' || c = '\x0c' ||
  c = '\u00A0' || c = '\u1680' || ('\u2000' ≤ c && c ≤ '\u200A') ||
  c = '\u2028' || c = '\u2029' || c = '\u202F' || c = '\u205F' ||
  c = '\u3000' || c = '\uFEFF'

/-- JavaScript `String.prototype.trim`: drop leading and trailing whitespace. -/
def jsTrim (cs : List Char) : List Char :=
  ((cs.dropWhile jsWS).reverse.dropWhile jsWS).reverse

/-- `jsTrim` on `String`. -/
def jsTrimS (s : String) : String := String.mk (jsTrim s.data)

/-- Lower-casing, for the case-insensitive regexes (flag `i`). -/
def toLowerL (cs : List Char) : List Char := cs.map Char.toLower

section BatchScheduler

/-! ## BatchScheduler (`processUploadedFiles`, EssayEvaluator.jsx 1470-1517)

`const batchSize = 3; const totalBatches = Math.ceil(files.length / batchSize);`
with chunk `batchIndex` being `files.slice(batchStart, batchEnd)` where
`batchStart = batchIndex * batchSize` and
`batchEnd = Math.min(batchStart + batchSize, files.length)`.
Chunking (and the 5000-8000 ms delay between consecutive chunks) only
happens when `files.length > 5`; otherwise the files are processed one by
one with no delay. -/

/-- `Math.ceil(n / 3)`, the number of batches for a queue of `n` files. -/
def totalBatches (n : Nat) : Nat := (n + 2) / 3

/-- `files.slice(3*i, Math.min(3*i + 3, files.length))`. -/
def batchChunk (files : List String) (i : Nat) : List String :=
  (files.drop (3 * i)).take (min (3 * i + 3) files.length - 3 * i)

/-- The ordered list of chunks the scheduler iterates over
(loop `for (let batchIndex = 0; batchIndex < totalBatches; batchIndex++)`). -/
def batchChunks (files : List String) : List (List String) :=
  (List.range (totalBatches files.length)).map (batchChunk files)

/-- The scheduler run: the sequential dispatch order of the queue and the
number of inter-batch delays awaited (`if (batchIndex < totalBatches - 1)`).
With more than 5 files the chunked path runs; otherwise the plain
sequential loop with no delay. -/
def scheduleRun (files : List String) : List String × Nat :=
  if files.length > 5 then ((batchChunks files).flatten, totalBatches files.length - 1)
  else (files, 0)

/-- Recursive reference form of the chunk partition, used to reason about
`batchChunks` by induction. -/
def chunksOf3 (l : List String) : List (List String) :=
  match l with
  | [] => []
  | a :: rest => (a :: rest.take 2) :: chunksOf3 (rest.drop 2)
termination_by l.length
decreasing_by simp; omega

theorem chunksOf3_cons (a : String) (rest : List String) :
    chunksOf3 (a :: rest) = (a :: rest.take 2) :: chunksOf3 (rest.drop 2) := by
  conv_lhs => unfold chunksOf3

/-- The chunks concatenate back to the original queue. -/
theorem chunksOf3_flatten (l : List String) : (chunksOf3 l).flatten = l := by
  induction l using chunksOf3.induct with
  | case1 => simp [chunksOf3]
  | case2 a rest ih =>
    rw [chunksOf3_cons]
    simp only [List.flatten_cons, ih]
    simp

/-- Every chunk has at most 3 elements. -/
theorem chunksOf3_le (l : List String) : ∀ c ∈ chunksOf3 l, c.length ≤ 3 := by
  induction l using chunksOf3.induct with
  | case1 => simp [chunksOf3]
  | case2 a rest ih =>
    rw [chunksOf3_cons]
    intro c hc
    rcases List.mem_cons.mp hc with h | h
    · subst h
      have : (rest.take 2).length ≤ 2 := by
        simp
      simp only [List.length_cons]
      omega
    · exact ih c h

/-- There are exactly `⌈n/3⌉` chunks. -/
theorem chunksOf3_count (l : List String) :
    (chunksOf3 l).length = totalBatches l.length := by
  induction l using chunksOf3.induct with
  | case1 => simp [chunksOf3, totalBatches]
  | case2 a rest ih =>
    rw [chunksOf3_cons]
    simp only [List.length_cons, ih, totalBatches, List.length_drop]
    omega

/-- The source's indexed slicing produces exactly the reference partition. -/
theorem batchChunks_eq_chunksOf3 (l : List String) : batchChunks l = chunksOf3 l := by
  induction l using chunksOf3.induct with
  | case1 => simp [batchChunks, totalBatches, chunksOf3]
  | case2 a rest ih =>
    rw [chunksOf3_cons, ← ih]
    unfold batchChunks
    have h1 : totalBatches (a :: rest).length = totalBatches (rest.drop 2).length + 1 := by
      simp only [List.length_cons, List.length_drop, totalBatches]; omega
    rw [h1, List.range_succ_eq_map, List.map_cons, List.map_map]
    congr 1
    · unfold batchChunk
      simp only [Nat.mul_zero, List.drop_zero, Nat.zero_add]
      rcases le_or_lt (a :: rest).length 3 with h | h
      · rw [min_eq_right h, Nat.sub_zero, List.take_length,
          List.take_of_length_le (by simp at h; omega)]
      · rw [min_eq_left (by omega), Nat.sub_zero]
        rfl
    · apply List.map_congr_left
      intro i _
      simp only [Function.comp_apply]
      unfold batchChunk
      have hd2 : (a :: rest).drop (3 * (i + 1)) = (rest.drop 2).drop (3 * i) := by
        have hd : 3 * (i + 1) = 1 + 2 + 3 * i := by ring
        rw [hd, ← List.drop_drop, ← List.drop_drop]
        rfl
      rw [hd2]
      congr 1
      simp only [List.length_cons, List.length_drop]
      omega

/-- C4: for every queue of N essay items with N > 5, the batch scheduler
partitions the queue into exactly `⌈N/3⌉` chunks (here `(N + 2) / 3`)
taken in order, every chunk has size at most 3, the chunk sizes sum to N,
the chunks concatenate to the original queue (so chunks, and items within
a chunk, are dispatched strictly sequentially in queue order with
`totalBatches - 1` inter-batch delays); for N ≤ 5 no chunking or
inter-batch delay is applied. -/
theorem batchScheduler_policy (files : List String) (h : files.length > 5) :
    (batchChunks files).length = (files.length + 2) / 3 ∧
    (∀ c ∈ batchChunks files, c.length ≤ 3) ∧
    ((batchChunks files).map List.length).sum = files.length ∧
    (batchChunks files).flatten = files ∧
    scheduleRun files = (files, (files.length + 2) / 3 - 1) ∧
    (∀ g : List String, g.length ≤ 5 → scheduleRun g = (g, 0)) := by
  have he := batchChunks_eq_chunksOf3 files
  refine ⟨?_, ?_, ?_, ?_, ?_, ?_⟩
  · rw [he, chunksOf3_count]; rfl
  · rw [he]; exact chunksOf3_le files
  · have hlen : ((chunksOf3 files).flatten).length = files.length := by
      rw [chunksOf3_flatten]
    rw [he, ← List.length_flatten, chunksOf3_flatten]
  · rw [he]; exact chunksOf3_flatten files
  · unfold scheduleRun
    rw [if_pos h, he, chunksOf3_flatten]
    rfl
  · intro g hg
    unfold scheduleRun
    rw [if_neg (by omega)]

theorem batchScheduler_policy_witness :
    (["a", "b", "c", "d", "e", "f", "g"].length > 5) ∧
    (batchChunks ["a", "b", "c", "d", "e", "f", "g"]).length
      = (["a", "b", "c", "d", "e", "f", "g"].length + 2) / 3 :=
  ⟨by decide, (batchScheduler_policy ["a", "b", "c", "d", "e", "f", "g"] (by decide)).1⟩

end BatchScheduler

section ResultAggregator

/-- An evaluation result as built by the alternative component
(src/unnamed/part_005): `id`, `filename`, `student_name`, `score`,
`maxScore`, `error`, `sessionId`; `Option` models absent JSON fields. -/
structure EvalResultP where
  id : String
  filename : String
  student_name : String
  score : Option Nat
  maxScore : Option Nat
  error : Option String
  sessionId : Option String
deriving DecidableEq, Repr

/-- `handleRemoveResult` (part_005 650-652 and EssayEvaluator.jsx
1415-1417): `setResults(prev => prev.filter(r => r.id !== idToRemove))`. -/
def handleRemoveResult (results : List EvalResultP) (idToRemove : String) :
    List EvalResultP :=
  results.filter (fun r => r.id != idToRemove)

/-- C9: removing a result by id is idempotent, and removing an id absent
from the list leaves the list unchanged. -/
theorem removeResult_idempotent (results : List EvalResultP) (idToRemove : String) :
    handleRemoveResult (handleRemoveResult results idToRemove) idToRemove
      = handleRemoveResult results idToRemove ∧
    ((∀ r ∈ results, r.id ≠ idToRemove) →
      handleRemoveResult results idToRemove = results) := by
  constructor
  · simp [handleRemoveResult, List.filter_filter]
  · intro h
    apply List.filter_eq_self.mpr
    intro r hr
    simpa using h r hr

theorem removeResult_idempotent_witness :
    handleRemoveResult [EvalResultP.mk "1" "a.txt" "Alice" none none none none] "2"
      = [EvalResultP.mk "1" "a.txt" "Alice" none none none none] :=
  (removeResult_idempotent
    [EvalResultP.mk "1" "a.txt" "Alice" none none none none] "2").2 (by decide)

end ResultAggregator

section FileQueue

/-- A browser `File` as consumed by `FileUploadCard`: name, byte size and
MIME type (`type` is a Lean keyword, hence `ftype`). -/
structure JFile where
  name : String
  size : Nat
  ftype : String
deriving DecidableEq, Repr

/-- `const MAX_FILES = 10` in `FileUploadCard`. -/
def MAX_FILES : Nat := 10

/-- `validateFile`: rejects empty files (`file.size === 0`). -/
def validateFile (f : JFile) : Bool := !(f.size == 0)

/-- `addFiles` (EssayEvaluator.jsx 887-898): filter invalid files; if any
new file is a PDF, replace the queue with the single first new file
(`setFiles([newFiles[0]])`, here `take 1` of the non-empty list);
otherwise, when the queue is below `MAX_FILES`, append at most the
remaining free slots (`newFiles.slice(0, availableSlots)`). -/
def addFiles (files : List JFile) (selected : List JFile) : List JFile :=
  if (selected.filter validateFile).length = 0 then files
  else if (selected.filter validateFile).any
      (fun f => f.ftype == "application/pdf") then
    (selected.filter validateFile).take 1
  else if files.length < MAX_FILES then
    files ++ (selected.filter validateFile).take (MAX_FILES - files.length)
  else files

/-- `handleDrop` (EssayEvaluator.jsx 872-885); its queue update is the
same computation as `addFiles`, applied to `e.dataTransfer.files`. -/
def handleDrop (files : List JFile) (dropped : List JFile) : List JFile :=
  if (dropped.filter validateFile).length = 0 then files
  else if (dropped.filter validateFile).any
      (fun f => f.ftype == "application/pdf") then
    (dropped.filter validateFile).take 1
  else if files.length < MAX_FILES then
    files ++ (dropped.filter validateFile).take (MAX_FILES - files.length)
  else files

theorem addFiles_length_le (files selected : List JFile)
    (h : files.length ≤ MAX_FILES) : (addFiles files selected).length ≤ MAX_FILES := by
  unfold addFiles MAX_FILES
  unfold MAX_FILES at h
  split_ifs with h1 h2 h3
  · exact h
  · have := List.length_take_le 1 (selected.filter validateFile)
    omega
  · simp only [List.length_append, List.length_take]
    omega
  · exact h

/-- C10: starting from a queue of at most `MAX_FILES = 10` entries, both
the add-files and the drag-and-drop operations keep the queue at no more
than 10 entries, truncating any excess. -/
theorem fileQueue_bounded (files selected dropped : List JFile)
    (h : files.length ≤ MAX_FILES) :
    (addFiles files selected).length ≤ MAX_FILES ∧
    (handleDrop files dropped).length ≤ MAX_FILES := by
  refine ⟨addFiles_length_le files selected h, ?_⟩
  have hd : handleDrop files dropped = addFiles files dropped := rfl
  rw [hd]
  exact addFiles_length_le files dropped h

theorem fileQueue_bounded_witness :
    (addFiles
      [JFile.mk "a.txt" 5 "text/plain", JFile.mk "b.txt" 5 "text/plain",
       JFile.mk "c.txt" 5 "text/plain", JFile.mk "d.txt" 5 "text/plain",
       JFile.mk "e.txt" 5 "text/plain", JFile.mk "f.txt" 5 "text/plain",
       JFile.mk "g.txt" 5 "text/plain", JFile.mk "h.txt" 5 "text/plain",
       JFile.mk "i.txt" 5 "text/plain"]
      [JFile.mk "x.txt" 5 "text/plain", JFile.mk "y.txt" 5 "text/plain",
       JFile.mk "z.txt" 5 "text/plain"]).length ≤ MAX_FILES :=
  (fileQueue_bounded _ _ [] (by decide)).1

end FileQueue

section ReportDownloader

/-- Characters KEPT by the download-name sanitizer: the regex
`/[^a-z0-9._-` `\s]/gi` replaces everything else, so letters of either
case, digits, dot, underscore, hyphen and every `\s` whitespace
character survive. -/
def keepChar (c : Char) : Bool :=
  ('a' ≤ c && c ≤ 'z') || ('A' ≤ c && c ≤ 'Z') || ('0' ≤ c && c ≤ '9') ||
  c = '.' || c = '_' || c = '-' || jsWS c

/-- First replace of `handleDownload` (part_005 626): each disallowed
character becomes `_`. -/
def replaceDisallowed (cs : List Char) : List Char :=
  cs.map (fun c => if keepChar c then c else '_')

/-- Second replace: `.replace(/_\x7b2,\x7d/g, a single underscore)` —
every run of two or more underscores collapses to one. The Boolean flag
records whether the previously emitted character was an underscore of a
run being collapsed. -/
def collapseUnderscores : List Char → Bool → List Char
  | [], _ => []
  | c :: rest, prevU =>
    if c = '_' then
      (if prevU then collapseUnderscores rest true
       else '_' :: collapseUnderscores rest true)
    else c :: collapseUnderscores rest false

/-- `handleDownload` (part_005 626): the locally saved filename. -/
def sanitizeDownloadName (cs : List Char) : List Char :=
  collapseUnderscores (replaceDisallowed cs) false

/-- Claim-side definition, following the spec words for comparison: keep
exactly `[a-zA-Z0-9._- ]` — plain space only, not the whole whitespace
class. -/
def specKeepChar (c : Char) : Bool :=
  ('a' ≤ c && c ≤ 'z') || ('A' ≤ c && c ≤ 'Z') || ('0' ≤ c && c ≤ '9') ||
  c = '.' || c = '_' || c = '-' || c = ' '

/-- Claim-side sanitizer per the spec wording. -/
def specSanitizeName (cs : List Char) : List Char :=
  collapseUnderscores (cs.map (fun c => if specKeepChar c then c else '_')) false

theorem collapseU_cons_us_true (rest : List Char) :
    collapseUnderscores ('_' :: rest) true = collapseUnderscores rest true := by
  conv_lhs => unfold collapseUnderscores
  simp

theorem collapseU_cons_us_false (rest : List Char) :
    collapseUnderscores ('_' :: rest) false = '_' :: collapseUnderscores rest true := by
  conv_lhs => unfold collapseUnderscores
  simp

theorem collapseU_cons_other (a : Char) (rest : List Char) (b : Bool) (ha : ¬ a = '_') :
    collapseUnderscores (a :: rest) b = a :: collapseUnderscores rest false := by
  conv_lhs => unfold collapseUnderscores
  rw [if_neg ha]

theorem collapseUnderscores_subset (cs : List Char) :
    ∀ b, ∀ c ∈ collapseUnderscores cs b, c ∈ cs := by
  induction cs with
  | nil => intro b c hc; simp [collapseUnderscores] at hc
  | cons a rest ih =>
    intro b c hc
    by_cases ha : a = '_'
    · subst ha
      cases b with
      | true =>
        rw [collapseU_cons_us_true] at hc
        exact List.mem_cons_of_mem _ (ih true c hc)
      | false =>
        rw [collapseU_cons_us_false] at hc
        rcases List.mem_cons.mp hc with h | h
        · subst h; exact List.mem_cons_self _ rest
        · exact List.mem_cons_of_mem _ (ih true c h)
    · rw [collapseU_cons_other a rest b ha] at hc
      rcases List.mem_cons.mp hc with h | h
      · subst h; exact List.mem_cons_self _ rest
      · exact List.mem_cons_of_mem _ (ih false c h)

theorem collapseUnderscores_chain (cs : List Char) :
    List.Chain' (fun a b => ¬(a = '_' ∧ b = '_'))
      ('_' :: collapseUnderscores cs true) ∧
    List.Chain' (fun a b => ¬(a = '_' ∧ b = '_'))
      (collapseUnderscores cs false) := by
  induction cs with
  | nil => constructor <;> simp [collapseUnderscores]
  | cons a rest ih =>
    have hstep : ∀ (l : List Char), ¬ a = '_' →
        List.Chain' (fun x y => ¬(x = '_' ∧ y = '_')) l →
        List.Chain' (fun x y => ¬(x = '_' ∧ y = '_')) (a :: l) := by
      intro l ha hl
      apply List.chain'_cons'.mpr
      exact ⟨fun b _ => fun hb => ha hb.1, hl⟩
    by_cases ha : a = '_'
    · subst ha
      refine ⟨?_, ?_⟩
      · rw [collapseU_cons_us_true]
        exact ih.1
      · rw [collapseU_cons_us_false]
        exact ih.1
    · refine ⟨?_, ?_⟩
      · rw [collapseU_cons_other a rest true ha]
        apply List.chain'_cons'.mpr
        refine ⟨fun b hb => ?_, hstep _ ha ih.2⟩
        simp at hb
        subst hb
        intro hcontra
        exact ha hcontra.2
      · rw [collapseU_cons_other a rest false ha]
        exact hstep _ ha ih.2

theorem collapseUnderscores_filter (cs : List Char) :
    ∀ b, (collapseUnderscores cs b).filter (fun c => c != '_')
      = cs.filter (fun c => c != '_') := by
  induction cs with
  | nil => intro b; simp [collapseUnderscores]
  | cons a rest ih =>
    intro b
    by_cases ha : a = '_'
    · subst ha
      cases b with
      | true =>
        rw [collapseU_cons_us_true, ih true]
        simp
      | false =>
        rw [collapseU_cons_us_false]
        simp only [List.filter_cons]
        simp [ih true]
    · rw [collapseU_cons_other a rest b ha]
      simp only [List.filter_cons]
      have h1 : (a != '_') = true := by simpa using ha
      rw [h1]
      simp only [ih false]

theorem replaceDisallowed_filter (cs : List Char) :
    (replaceDisallowed cs).filter (fun c => c != '_')
      = cs.filter (fun c => keepChar c && c != '_') := by
  induction cs with
  | nil => simp [replaceDisallowed]
  | cons a rest ih =>
    unfold replaceDisallowed at ih ⊢
    simp only [List.map_cons, List.filter_cons]
    by_cases hk : keepChar a
    · rw [if_pos hk]
      by_cases ha : a = '_'
      · subst ha
        simp [ih]
      · have h1 : (a != '_') = true := by simpa using ha
        rw [h1]
        simp only [hk, Bool.true_and, h1, ih]
    · rw [if_neg hk]
      have h1 : keepChar a = false := by simpa using hk
      simp [h1, ih]

/-- C8 (amended): the saved filename keeps only characters from
`[a-zA-Z0-9._-]` plus JavaScript whitespace (`\s`, not just the plain
space); the output never contains two adjacent underscores; and collapsing
only removes underscores — the non-underscore kept characters survive in
order. -/
theorem sanitizeDownloadName_spec (cs : List Char) :
    (∀ c ∈ sanitizeDownloadName cs, keepChar c) ∧
    List.Chain' (fun a b => ¬(a = '_' ∧ b = '_')) (sanitizeDownloadName cs) ∧
    (sanitizeDownloadName cs).filter (fun c => c != '_')
      = cs.filter (fun c => keepChar c && c != '_') := by
  refine ⟨?_, (collapseUnderscores_chain (replaceDisallowed cs)).2, ?_⟩
  · intro c hc
    have hmem := collapseUnderscores_subset (replaceDisallowed cs) false c hc
    unfold replaceDisallowed at hmem
    rcases List.mem_map.mp hmem with ⟨x, _, hx⟩
    by_cases hk : keepChar x
    · rw [if_pos hk] at hx; rw [← hx]; exact hk
    · rw [if_neg hk] at hx; rw [← hx]; rfl
  · rw [sanitizeDownloadName, collapseUnderscores_filter, replaceDisallowed_filter]

/-- C8 counterexample: a tab character survives the code's sanitizer (it
is inside `\s`) but the spec's character class `[a-zA-Z0-9._- ]` demands
it be replaced by an underscore. -/
theorem sanitizeDownloadName_counterexample :
    sanitizeDownloadName ['a', '\t', 'b'] = ['a', '\t', 'b'] ∧
    specSanitizeName ['a', '\t', 'b'] = ['a', '_', 'b'] ∧
    sanitizeDownloadName ['a', '\t', 'b'] ≠ specSanitizeName ['a', '\t', 'b'] := by
  refine ⟨by decide, by decide, by decide⟩

end ReportDownloader

section RubricResolver

/-- A preset rubric (`presetRubrics` entries have an `id` and `content`). -/
structure PresetRubric where
  id : String
  content : String
deriving DecidableEq, Repr

/-- The UI state the rubric logic of `processFile` / `processEssayBatch`
(EssayEvaluator.jsx 1292-1313 and 1519-1543) reads. The empty string
models a JavaScript falsy value (no selection / no text); `rubricFile` is
`some name` when a file object is held. -/
structure RubricState where
  isRubricLocked : Bool
  lockedRubricText : String
  selectedPresetRubric : String
  presetRubrics : List PresetRubric
  rubricFile : Option String
  rubricText : String
deriving DecidableEq, Repr

/-- What gets appended to the dispatched `FormData`: a `rubric_text`
field, a `rubric_file` field, or nothing. -/
inductive RubricAttachment where
  | rtext (s : String)
  | rfile (f : String)
  | rnone
deriving DecidableEq, Repr

/-- The rubric branch of `processFile` (identical in `processEssayBatch`):
`if (isRubricLocked && lockedRubricText) ... else if (selectedPresetRubric)
{ const preset = presetRubrics.find(r => r.id === selectedPresetRubric);
if (preset) ... } else if (rubricFile) ... else if (rubricText &&
rubricText.trim()) ... else nothing`. Note the preset branch appends
nothing at all when the selected id is not found. -/
def resolveRubric (st : RubricState) : RubricAttachment :=
  if st.isRubricLocked && !(st.lockedRubricText == "") then
    .rtext st.lockedRubricText
  else if !(st.selectedPresetRubric == "") then
    match st.presetRubrics.find? (fun p => p.id == st.selectedPresetRubric) with
    | some p => .rtext p.content
    | none => .rnone
  else
    match st.rubricFile with
    | some f => .rfile f
    | none =>
      if !(jsTrimS st.rubricText == "") then .rtext (jsTrimS st.rubricText)
      else .rnone

/-- C3 (amended): when the rubric is not locked, the precedence is
preset (when the selected preset id resolves; an unknown selected id
sends no rubric at all) > uploaded rubric file > trimmed free text >
none. In particular a selected preset wins over an uploaded file. -/
theorem resolveRubric_precedence (st : RubricState)
    (hlock : ¬ (st.isRubricLocked = true ∧ st.lockedRubricText ≠ "")) :
    (∀ p, st.selectedPresetRubric ≠ "" →
      st.presetRubrics.find? (fun q => q.id == st.selectedPresetRubric) = some p →
      resolveRubric st = .rtext p.content) ∧
    (st.selectedPresetRubric ≠ "" →
      st.presetRubrics.find? (fun q => q.id == st.selectedPresetRubric) = none →
      resolveRubric st = .rnone) ∧
    (∀ f, st.selectedPresetRubric = "" → st.rubricFile = some f →
      resolveRubric st = .rfile f) ∧
    (st.selectedPresetRubric = "" → st.rubricFile = none →
      jsTrimS st.rubricText ≠ "" → resolveRubric st = .rtext (jsTrimS st.rubricText)) ∧
    (st.selectedPresetRubric = "" → st.rubricFile = none →
      jsTrimS st.rubricText = "" → resolveRubric st = .rnone) := by
  have hguard : (st.isRubricLocked && !(st.lockedRubricText == "")) = false := by
    rcases Bool.eq_false_or_eq_true st.isRubricLocked with hb | hb
    · have : st.lockedRubricText = "" := by
        by_contra hne
        exact hlock ⟨hb, hne⟩
      simp [this]
    · simp [hb]
  refine ⟨?_, ?_, ?_, ?_, ?_⟩
  · intro p hsel hfind
    unfold resolveRubric
    rw [hguard, if_neg (by simp)]
    rw [if_pos (by simpa using hsel), hfind]
  · intro hsel hfind
    unfold resolveRubric
    rw [hguard, if_neg (by simp)]
    rw [if_pos (by simpa using hsel), hfind]
  · intro f hsel hfile
    unfold resolveRubric
    rw [hguard, if_neg (by simp)]
    rw [if_neg (by simp [hsel]), hfile]
  · intro hsel hfile htrim
    unfold resolveRubric
    rw [hguard, if_neg (by simp)]
    rw [if_neg (by simp [hsel]), hfile]
    simp only [if_pos (by simpa using htrim : (!(jsTrimS st.rubricText == "")) = true)]
  · intro hsel hfile htrim
    unfold resolveRubric
    rw [hguard, if_neg (by simp)]
    rw [if_neg (by simp [hsel]), hfile]
    simp [htrim]

theorem resolveRubric_precedence_witness :
    resolveRubric (RubricState.mk false "" "p1" [PresetRubric.mk "p1" "PRESET"]
      (some "rubric.pdf") "") = RubricAttachment.rtext "PRESET" :=
  (resolveRubric_precedence
    (RubricState.mk false "" "p1" [PresetRubric.mk "p1" "PRESET"] (some "rubric.pdf") "")
    (by simp)).1 (PresetRubric.mk "p1" "PRESET") (by decide) (by decide)

/-- C3 counterexample: with an uploaded rubric file present AND a preset
selected (rubric not locked), the code sends the preset text, not the
uploaded file — the claimed precedence uploaded file > preset is false. -/
theorem resolveRubric_counterexample :
    resolveRubric (RubricState.mk false "" "p1" [PresetRubric.mk "p1" "PRESET"]
        (some "rubric.pdf") "") = RubricAttachment.rtext "PRESET" ∧
    (RubricState.mk false "" "p1" [PresetRubric.mk "p1" "PRESET"]
        (some "rubric.pdf") "").rubricFile = some "rubric.pdf" ∧
    resolveRubric (RubricState.mk false "" "p1" [PresetRubric.mk "p1" "PRESET"]
        (some "rubric.pdf") "") ≠ RubricAttachment.rfile "rubric.pdf" := by
  refine ⟨by decide, by decide, by decide⟩

end RubricResolver

section SubmitPreconditions

/-- `pdfFiles` of the alternative component's `handleSubmit`
(part_005 579): files whose MIME type is `application/pdf` or whose
lower-cased name ends in `.pdf`. -/
def isPdfSubmission (f : JFile) : Bool :=
  f.ftype == "application/pdf" ||
    List.isSuffixOf (String.data ".pdf") (toLowerL f.name.data)

/-- The upload branch of `handleSubmit` (part_005 503-590), reduced to
its dispatch decision: which essay items reach `processItem` (the network
call), or which precondition error aborts the run before any dispatch.
`files.length === 0` errors first; then
`if (pdfFiles.length > 1) throw`; then exactly one PDF dispatches that
PDF; otherwise only `files[0]` is dispatched. -/
def handleSubmitUpload (files : List JFile) : Except String (List JFile) :=
  if files.length = 0 then .error "Please upload at least one essay file."
  else if (files.filter isPdfSubmission).length > 1 then
    .error "Processing stopped: Only one PDF file can be evaluated at a time."
  else if (files.filter isPdfSubmission).length = 1 then
    .ok (files.filter isPdfSubmission)
  else .ok (files.take 1)

/-- C5 (amended): the PDF precondition aborts the run before any network
call only when MORE than one PDF is queued (and then nothing is
dispatched); a queue with exactly one PDF — even alongside non-PDF files —
does not error: exactly the one PDF is dispatched. With no PDFs only the
first file is dispatched. -/
theorem handleSubmitUpload_policy (files : List JFile) (hne : files ≠ []) :
    ((files.filter isPdfSubmission).length > 1 →
      handleSubmitUpload files =
        .error "Processing stopped: Only one PDF file can be evaluated at a time.") ∧
    ((files.filter isPdfSubmission).length = 1 →
      handleSubmitUpload files = .ok (files.filter isPdfSubmission)) ∧
    ((files.filter isPdfSubmission).length = 0 →
      handleSubmitUpload files = .ok (files.take 1)) := by
  have hlen : ¬ files.length = 0 := by
    intro h
    exact hne (List.length_eq_zero.mp h)
  refine ⟨?_, ?_, ?_⟩
  · intro hpdf
    unfold handleSubmitUpload
    rw [if_neg hlen, if_pos hpdf]
  · intro hpdf
    unfold handleSubmitUpload
    rw [if_neg hlen, if_neg (by omega), if_pos hpdf]
  · intro hpdf
    unfold handleSubmitUpload
    rw [if_neg hlen, if_neg (by omega), if_neg (by omega)]

theorem handleSubmitUpload_policy_witness :
    handleSubmitUpload
      [JFile.mk "a.pdf" 100 "application/pdf", JFile.mk "b.pdf" 100 "application/pdf"]
      = .error "Processing stopped: Only one PDF file can be evaluated at a time." :=
  (handleSubmitUpload_policy
    [JFile.mk "a.pdf" 100 "application/pdf", JFile.mk "b.pdf" 100 "application/pdf"]
    (by decide)).1 (by decide)

/-- C5 counterexample: one PDF plus one TXT file does NOT raise a
precondition error — the run proceeds and dispatches the PDF. -/
theorem handleSubmitUpload_counterexample :
    handleSubmitUpload
      [JFile.mk "essay.pdf" 100 "application/pdf", JFile.mk "notes.txt" 50 "text/plain"]
      = .ok [JFile.mk "essay.pdf" 100 "application/pdf"] := by
  rfl

end SubmitPreconditions

section RequestDispatcher

/-- A per-essay entry of a `results`-bearing response consumed by the
alternative component's `processItem` (part_005 548-557). The empty
string models an absent `filename`; `Option` models absent numbers. -/
structure P5Item where
  filename : String
  student_name : String
  overall_score : Option Nat
  max_score : Option Nat
  error : Option String
deriving DecidableEq, Repr

/-- Outcome of the `fetch` in `processItem`: the promise rejects
(`fetchFail`), the response is not ok (`httpError`, with the parsed
`detail`; the empty string models a missing detail), or it parses to one
of the recognised JSON shapes. -/
inductive P5Outcome where
  | fetchFail (msg : String)
  | httpError (detail : String)
  | okEmpty (session_id : String)
  | okResults (session_id : String) (items : List P5Item)
  | okOther (session_id : String)
deriving DecidableEq, Repr

/-- Component state threaded through a run of the alternative component:
the `sessionId` React state CELL (the value `setSessionId` writes, which
only future renders observe), the `results` list, and a fresh counter
standing in for `Date.now()` / `Math.random()` in generated ids. Reads of
`sessionId` inside a running callback do NOT see this cell: they see the
render-frozen closure value, passed separately as `frozen`. -/
structure P5State where
  sessionId : Option String
  results : List EvalResultP
  nextId : Nat
deriving DecidableEq, Repr

/-- JavaScript truthiness of a `sessionId` value (`null` and the empty
string are falsy). -/
def truthyOpt : Option String → Bool
  | none => false
  | some s => !(s == "")

/-- The error result built in the `catch` of `processItem`
(part_005 566-572): id from the identifier and a fresh number, filename =
the item's identifier, `error: err.message || 'Network error or server
issue.'`; its `sessionId: sessionId` (line 571) reads the render-frozen
closure variable, not the state cell. -/
def p5ErrorResult (frozen : Option String) (st : P5State)
    (identifier msg : String) : EvalResultP :=
  EvalResultP.mk ("error-" ++ identifier ++ "-" ++ toString st.nextId)
    identifier "Evaluation Failed" none none
    (some (if msg == "" then "Network error or server issue." else msg))
    frozen

/-- One normalized entry of a `results` response (part_005 549-557):
`id` from session id, filename-or-index and a fresh number; all other
fields copied; `sessionId: data.session_id`. -/
def p5ItemResult (sid : String) (nid i : Nat) (r : P5Item) : EvalResultP :=
  EvalResultP.mk
    (sid ++ "-" ++ (if r.filename == "" then toString i else r.filename)
      ++ "-" ++ toString nid)
    r.filename r.student_name r.overall_score r.max_score r.error (some sid)

/-- `processItem` (part_005 516-575). A failed fetch or a non-ok HTTP
status ends in the `catch` block, which appends a single error result and
returns normally; an ok response runs
`if (!sessionId) setSessionId(data.session_id)` (line 543), where
`sessionId` is the render-frozen closure value `frozen` — constant for
the whole run — so whenever `frozen` is falsy EVERY ok response
overwrites the state cell; then the normalized results are appended
(none for the `empty` or unrecognised shapes). -/
def processItem (frozen : Option String) (st : P5State) (identifier : String)
    (outcome : P5Outcome) : P5State :=
  match outcome with
  | .fetchFail msg =>
    P5State.mk st.sessionId
      (st.results ++ [p5ErrorResult frozen st identifier msg])
      (st.nextId + 1)
  | .httpError detail =>
    P5State.mk st.sessionId
      (st.results ++ [p5ErrorResult frozen st identifier
        (if detail == "" then "Evaluation failed for \"" ++ identifier ++ "\""
         else detail)])
      (st.nextId + 1)
  | .okEmpty sid =>
    P5State.mk (if truthyOpt frozen then st.sessionId else some sid)
      st.results st.nextId
  | .okOther sid =>
    P5State.mk (if truthyOpt frozen then st.sessionId else some sid)
      st.results st.nextId
  | .okResults sid items =>
    P5State.mk (if truthyOpt frozen then st.sessionId else some sid)
      (st.results ++ items.enum.map (fun p => p5ItemResult sid (st.nextId + p.1) p.1 p.2))
      (st.nextId + items.length)

/-- Sequential dispatch of a queue of items through `processItem`,
starting from the state of a fresh run (`setResults([])`,
`setSessionId(null)`); `frozen` is the closure value captured at the
render that produced the running callback and stays fixed across the
whole fold — exactly the React staleness. -/
def runQueue (frozen : Option String) (queue : List (String × P5Outcome)) :
    P5State :=
  queue.foldl (fun st p => processItem frozen st p.1 p.2) (P5State.mk none [] 0)

/-- How many results one item's outcome contributes to the list. -/
def itemResultCount : P5Outcome → Nat
  | .fetchFail _ => 1
  | .httpError _ => 1
  | .okResults _ items => items.length
  | .okEmpty _ => 0
  | .okOther _ => 0

theorem processItem_results_length (frozen : Option String) (st : P5State)
    (identifier : String) (o : P5Outcome) :
    (processItem frozen st identifier o).results.length
      = st.results.length + itemResultCount o := by
  cases o <;> simp [processItem, itemResultCount]

theorem runQueue_foldl_length (frozen : Option String)
    (q : List (String × P5Outcome)) :
    ∀ st : P5State,
      (q.foldl (fun st p => processItem frozen st p.1 p.2) st).results.length
        = st.results.length + (q.map (fun p => itemResultCount p.2)).sum := by
  induction q with
  | nil => intro st; simp
  | cons a rest ih =>
    intro st
    simp only [List.foldl_cons, List.map_cons, List.sum_cons]
    rw [ih, processItem_results_length]
    omega

/-- C6: a dispatch failure for one item (HTTP error status or network
failure) is converted into exactly one appended `EvaluationResult` whose
`error` is set and whose `filename` is the item's original identifier;
processing is not halted — every item of the queue contributes its
results (so the result count is the sum over all items, failures
included), and the scheduler dispatches every queued file in order
regardless of chunking. -/
theorem dispatchFailure_policy :
    (∀ (frozen : Option String) (st : P5State) (identifier msg : String),
      ∃ r : EvalResultP,
      (processItem frozen st identifier (P5Outcome.fetchFail msg)).results
        = st.results ++ [r] ∧ r.error.isSome ∧ r.filename = identifier) ∧
    (∀ (frozen : Option String) (st : P5State) (identifier detail : String),
      ∃ r : EvalResultP,
      (processItem frozen st identifier (P5Outcome.httpError detail)).results
        = st.results ++ [r] ∧ r.error.isSome ∧ r.filename = identifier) ∧
    (∀ (frozen : Option String) (q : List (String × P5Outcome)),
      (runQueue frozen q).results.length
        = (q.map (fun p => itemResultCount p.2)).sum) ∧
    (∀ files : List String, (scheduleRun files).1 = files) := by
  refine ⟨?_, ?_, ?_, ?_⟩
  · intro frozen st identifier msg
    exact ⟨p5ErrorResult frozen st identifier msg, rfl, rfl, rfl⟩
  · intro frozen st identifier detail
    refine ⟨p5ErrorResult frozen st identifier
      (if detail == "" then "Evaluation failed for \"" ++ identifier ++ "\""
       else detail), rfl, rfl, rfl⟩
  · intro frozen q
    unfold runQueue
    rw [runQueue_foldl_length]
    simp
  · intro files
    unfold scheduleRun
    by_cases h : files.length > 5
    · rw [if_pos h]
      simp only []
      rw [batchChunks_eq_chunksOf3, chunksOf3_flatten]
    · rw [if_neg h]

end RequestDispatcher

section ResponseNormalization

/-- An evaluation result as built by `EssayEvaluator.jsx` (1587-1598 and
1628-1636): `id` modelled by a fresh counter, `filename`, `student_name`,
`score`, `maxScore`, `sessionId`. -/
structure EvalResultE where
  rid : Nat
  filename : String
  student_name : String
  score : Nat
  maxScore : Nat
  sessionId : String
deriving DecidableEq, Repr

/-- One entry of a `multiple` response (`jsonData.results`): `id` checked
with `!== undefined` hence an `Option`; the empty string models absent
`filename` / `student_name`; numbers are `Option` plus JS `|| d`. -/
structure MultiItem where
  idField : Option Nat
  filename : String
  student_name : String
  overall_score : Option Nat
  max_score : Option Nat
deriving DecidableEq, Repr

/-- The two response shapes `processFile` dispatches on
(`evaluation_status` of `single` or `multiple`). -/
inductive ServerResponse where
  | single (session_id filename student_name : String)
      (overall_score max_score : Option Nat)
  | multiple (session_id : String) (results : List MultiItem)
deriving DecidableEq, Repr

/-- The run state of `EssayEvaluator.jsx`: the `sessionId` React state
CELL (what `setSessionId` writes; only future renders read it), the
ordered `results` list, and a fresh counter standing in for
`Date.now() + Math.random()` ids. The `sessionId` reads inside the
handlers see the render-frozen closure value, passed as `frozen`. -/
structure RunStateE where
  sessionId : Option String
  results : List EvalResultE
  nextId : Nat
deriving DecidableEq, Repr

/-- JavaScript `x || d` on an optional number (`0` is falsy). -/
def jsOr (v : Option Nat) (d : Nat) : Nat :=
  match v with
  | some m => if m = 0 then d else m
  | none => d

/-- JavaScript `s || d` on a string (the empty string is falsy). -/
def jsOrS (s d : String) : String := if s == "" then d else s

/-- `handleSingleEssayResponseJson` (EssayEvaluator.jsx 1566-1599):
throws when `session_id` or `filename` is falsy; runs
`if (!sessionId) setSessionId(session_id)` (line 1571), where `sessionId`
is the render-frozen closure value `frozen` — so whenever `frozen` is
falsy the state cell is overwritten by THIS response's id; appends one
result whose `sessionId` is this response's `session_id`. -/
def handleSingleEssayResponseJson (frozen : Option String) (st : RunStateE)
    (session_id filename student_name : String)
    (overall_score max_score : Option Nat) : Except String RunStateE :=
  if session_id == "" || filename == "" then
    .error "Missing session_id or filename."
  else
    .ok (RunStateE.mk
      (if truthyOpt frozen then st.sessionId else some session_id)
      (st.results ++ [EvalResultE.mk st.nextId filename
        (jsOrS student_name "Unknown") (jsOr overall_score 0)
        (jsOr max_score 10) session_id])
      (st.nextId + 1))

/-- One normalized entry of a `multiple` response
(EssayEvaluator.jsx 1628-1636): filename falls back to
`filename_part(id-or-index + 1)`, student name to `Essay (index+1)`;
`sessionId: jsonData.session_id` — the response's own id. -/
def normalizeMultiItem (sid fallbackName : String) (nid i : Nat)
    (r : MultiItem) : EvalResultE :=
  EvalResultE.mk nid
    (if r.filename == "" then
      fallbackName ++ "_part" ++ toString ((r.idField.getD i) + 1)
     else r.filename)
    (jsOrS r.student_name ("Essay " ++ toString (i + 1)))
    (jsOr r.overall_score 0) (jsOr r.max_score 10) sid

/-- `handleMultipleEssaysResponse`, `multiple` branch
(EssayEvaluator.jsx 1601-1638): `if (jsonData.session_id && !sessionId)`
(line 1603) reads the render-frozen closure value `frozen`, so whenever
`frozen` is falsy every response with a truthy `session_id` overwrites
the state cell; then the normalized results are appended when the list is
non-empty. -/
def handleMultipleEssaysResponse (frozen : Option String) (st : RunStateE)
    (session_id : String) (results : List MultiItem) (fallbackName : String) :
    RunStateE :=
  if results.length > 0 then
    RunStateE.mk
      (if !(session_id == "") && !(truthyOpt frozen) then some session_id
       else st.sessionId)
      (st.results ++ results.enum.map
        (fun p => normalizeMultiItem session_id fallbackName (st.nextId + p.1) p.1 p.2))
      (st.nextId + results.length)
  else
    RunStateE.mk
      (if !(session_id == "") && !(truthyOpt frozen) then some session_id
       else st.sessionId)
      st.results st.nextId

/-- Handling of one parsed response inside `processFile`
(EssayEvaluator.jsx 1556-1563): dispatch on `evaluation_status`; a throw
from the single handler is caught by the `try/catch` around
`processFile(file)` in `processUploadedFiles`, leaving the state
unchanged (only `setError` runs, no result is appended). -/
def stepResponse (frozen : Option String) (st : RunStateE) :
    ServerResponse → String → RunStateE
  | .single sid f sn sc mx, _ =>
    (match handleSingleEssayResponseJson frozen st sid f sn sc mx with
     | .ok st2 => st2
     | .error _ => st)
  | .multiple sid rs, originalFilename =>
    handleMultipleEssaysResponse frozen st sid rs originalFilename

/-- A whole run: responses processed in dispatch order from the reset
state (`setResults([]); setSessionId(null)` in `handleSubmit`), each
paired with the original filename passed to the handler. `frozen` is the
closure value of the render that produced the running `handleSubmit`
(`none` on a fresh mount) and stays fixed across the whole run — the
React staleness: the mid-run `setSessionId` writes are never read back
within the run. -/
def runResponses (frozen : Option String)
    (resps : List (ServerResponse × String)) : RunStateE :=
  resps.foldl (fun st pr => stepResponse frozen st pr.1 pr.2)
    (RunStateE.mk none [] 0)

/-- The `session_id` carried by a response. -/
def respSessionId : ServerResponse → String
  | .single sid _ _ _ _ => sid
  | .multiple sid _ => sid

/-- Whether a response triggers `setSessionId` under a falsy frozen
closure value: a single response that passes the throw guard, or a
multiple response with a truthy `session_id`. -/
def respEstablishes : ServerResponse → Bool
  | .single sid f _ _ _ => !(sid == "" || f == "")
  | .multiple sid _ => !(sid == "")

/-- C2 (amended): each appended `EvaluationResult` carries the
`session_id` of the response that produced it, not a run-global id; and
the `if (!sessionId)` guard reads the render-frozen closure value, stale
for the whole run, so in a fresh run (frozen value null) EVERY id-bearing
response overwrites the session-id state — the run ends with the LAST
response's id — while in a run whose closure captured a previous truthy
id the state is never set at all. -/
theorem sessionId_policy :
    (∀ (frozen : Option String) (st : RunStateE) (resp : ServerResponse)
      (n : String) (r : EvalResultE),
      r ∈ (stepResponse frozen st resp n).results →
      r ∈ st.results ∨ r.sessionId = respSessionId resp) ∧
    (∀ (st : RunStateE) (resp : ServerResponse) (n : String),
      (stepResponse none st resp n).sessionId
        = if respEstablishes resp then some (respSessionId resp)
          else st.sessionId) ∧
    (∀ (frozen : Option String) (st : RunStateE) (resp : ServerResponse)
      (n : String), truthyOpt frozen = true →
      (stepResponse frozen st resp n).sessionId = st.sessionId) := by
  refine ⟨?_, ?_, ?_⟩
  · intro frozen st resp n r hr
    cases resp with
    | single sid f sn sc mx =>
      simp only [stepResponse] at hr
      unfold handleSingleEssayResponseJson at hr
      by_cases hguard : (sid == "" || f == "") = true
      · rw [if_pos hguard] at hr
        exact Or.inl hr
      · rw [if_neg hguard] at hr
        have hr2 : r ∈ st.results ++ [EvalResultE.mk st.nextId f
            (jsOrS sn "Unknown") (jsOr sc 0) (jsOr mx 10) sid] := hr
        rcases List.mem_append.mp hr2 with h | h
        · exact Or.inl h
        · right
          simp only [List.mem_singleton] at h
          subst h
          rfl
    | multiple sid rs =>
      simp only [stepResponse] at hr
      unfold handleMultipleEssaysResponse at hr
      by_cases hlen : rs.length > 0
      · rw [if_pos hlen] at hr
        have hr2 : r ∈ st.results ++ rs.enum.map
            (fun p => normalizeMultiItem sid n (st.nextId + p.1) p.1 p.2) := hr
        rcases List.mem_append.mp hr2 with h | h
        · exact Or.inl h
        · right
          rcases List.mem_map.mp h with ⟨p, _, hp⟩
          rw [← hp]
          rfl
      · rw [if_neg hlen] at hr
        exact Or.inl hr
  · intro st resp n
    cases resp with
    | single sid f sn sc mx =>
      simp only [stepResponse, respEstablishes, respSessionId]
      unfold handleSingleEssayResponseJson
      by_cases hguard : (sid == "" || f == "") = true
      · rw [if_pos hguard, hguard]
        simp
      · have hguard2 : (sid == "" || f == "") = false := by
          revert hguard
          cases (sid == "" || f == "") <;> simp
        rw [if_neg hguard, hguard2]
        show (if truthyOpt none = true then st.sessionId else some sid)
          = if (!false) = true then some sid else st.sessionId
        simp [truthyOpt]
    | multiple sid rs =>
      simp only [stepResponse, respEstablishes, respSessionId]
      unfold handleMultipleEssaysResponse
      by_cases hlen : rs.length > 0
      · rw [if_pos hlen]
        show (if !(sid == "") && !(truthyOpt none) then some sid
          else st.sessionId) = _
        simp [truthyOpt]
      · rw [if_neg hlen]
        show (if !(sid == "") && !(truthyOpt none) then some sid
          else st.sessionId) = _
        simp [truthyOpt]
  · intro frozen st resp n hf
    cases resp with
    | single sid f sn sc mx =>
      simp only [stepResponse]
      unfold handleSingleEssayResponseJson
      by_cases hguard : (sid == "" || f == "") = true
      · rw [if_pos hguard]
      · rw [if_neg hguard]
        show (if truthyOpt frozen = true then st.sessionId else some sid)
          = st.sessionId
        rw [if_pos hf]
    | multiple sid rs =>
      simp only [stepResponse]
      unfold handleMultipleEssaysResponse
      by_cases hlen : rs.length > 0
      · rw [if_pos hlen]
        show (if !(sid == "") && !(truthyOpt frozen) then some sid
          else st.sessionId) = st.sessionId
        simp [hf]
      · rw [if_neg hlen]
        show (if !(sid == "") && !(truthyOpt frozen) then some sid
          else st.sessionId) = st.sessionId
        simp [hf]

theorem sessionId_policy_witness :
    (stepResponse (some "old") (RunStateE.mk none [] 0)
      (ServerResponse.single "s2" "b.txt" "Bob" (some 7) (some 10))
      "b.txt").sessionId = none :=
  sessionId_policy.2.2 (some "old") (RunStateE.mk none [] 0)
    (ServerResponse.single "s2" "b.txt" "Bob" (some 7) (some 10)) "b.txt"
    (by decide)

/-- C2 counterexample: a fresh run (render-frozen closure value null)
receiving two single responses with session ids `s1` then `s2` ends with
the state holding `s2` — the LAST response's id, not the first — and the
two appended results each carry their own response's id, refuting both
halves of the claim. -/
theorem sessionId_counterexample :
    (runResponses none
      [(ServerResponse.single "s1" "a.txt" "Alice" (some 8) (some 10), "a.txt"),
       (ServerResponse.single "s2" "b.txt" "Bob" (some 7) (some 10), "b.txt")]).sessionId
      = some "s2" ∧
    (runResponses none
      [(ServerResponse.single "s1" "a.txt" "Alice" (some 8) (some 10), "a.txt"),
       (ServerResponse.single "s2" "b.txt" "Bob" (some 7) (some 10), "b.txt")]).results.map
      (fun r => r.sessionId) = ["s1", "s2"] ∧
    ("s1" : String) ≠ "s2" := by
  refine ⟨rfl, rfl, by decide⟩

end ResponseNormalization

section TextSegmenter

/-! ## TextSegmenter (`splitEssaysText`, EssayEvaluator.jsx 1337-1365)

The source scans `text.split('\n')` accumulating the current essay; a
line matching one of the unanchored case-insensitive regexes
`/Student Name:/i`, `/Student:/i`, `/Name:/i` while the accumulator holds
non-whitespace content pushes the trimmed accumulator. If no marker fired
or at most one segment resulted, the essays are REPLACED by the blank-line
split `text.split(/\n\x7b3,\x7d/)` filtered to trimmed length > 100; if
still at most one segment and the text exceeds 10000 characters, by the
separator split on `---` / `***` / `___` lines, similarly filtered. -/

/-- `text.split('\n')`. -/
def splitNL : List Char → List (List Char)
  | [] => [[]]
  | c :: rest =>
    if c = '\n' then [] :: splitNL rest
    else
      match splitNL rest with
      | [] => [[c]]
      | h :: t => (c :: h) :: t

/-- The three marker patterns, lower-cased. -/
def markerPatterns : List (List Char) :=
  [String.data "student name:", String.data "student:", String.data "name:"]

/-- `patterns.some(pattern => pattern.test(line))`: the regexes are
unanchored, so a marker anywhere in the line matches. -/
def isMarkerLine (line : List Char) : Bool :=
  markerPatterns.any (fun p => decide (p <:+: toLowerL line))

/-- Claim-side predicate (for comparison with the spec wording): a marker
at the START of the line. -/
def lineStartsWithMarker (line : List Char) : Bool :=
  markerPatterns.any (fun p => p.isPrefixOf (toLowerL line))

/-- The loop state: pushed essays, the accumulator, and
`foundAnyMarker`. -/
structure MState where
  essays : List (List Char)
  cur : List Char
  found : Bool
deriving DecidableEq, Repr

/-- One iteration of the scanning loop (EssayEvaluator.jsx 1343-1353):
on a marker line with non-whitespace accumulator, push the trimmed
accumulator and restart it from this line; otherwise append the line. -/
def markerStep (st : MState) (line : List Char) : MState :=
  if isMarkerLine line && !(jsTrim st.cur).isEmpty then
    MState.mk (st.essays ++ [jsTrim st.cur]) (line ++ ['\n']) true
  else
    MState.mk st.essays (st.cur ++ line ++ ['\n']) st.found

/-- The whole scan of the split lines. -/
def markerScan (text : List Char) : MState :=
  (splitNL text).foldl markerStep (MState.mk [] [] false)

/-- The essays after the loop plus the final
`if (currentEssay.trim().length > 0) essays.push(currentEssay.trim())`,
paired with `foundAnyMarker`. -/
def markerPhase (text : List Char) : List (List Char) × Bool :=
  (if !(jsTrim (markerScan text).cur).isEmpty then
    (markerScan text).essays ++ [jsTrim (markerScan text).cur]
   else (markerScan text).essays,
   (markerScan text).found)

/-- `text.split(/\n\x7b3,\x7d/)` — greedy split on runs of 3 or more
newlines. `pend` counts newlines seen but not yet committed, `acc` holds
the current segment reversed. -/
def blankAux : List Char → Nat → List Char → List (List Char)
  | [], pend, acc =>
    if 3 ≤ pend then [acc.reverse, []]
    else [acc.reverse ++ List.replicate pend '\n']
  | c :: rest, pend, acc =>
    if c = '\n' then blankAux rest (pend + 1) acc
    else if 3 ≤ pend then acc.reverse :: blankAux rest 0 [c]
    else blankAux rest 0 (c :: (List.replicate pend '\n' ++ acc))

def blankSplit (cs : List Char) : List (List Char) := blankAux cs 0 []

/-- Length of the leading run of `ch`. -/
def runLen (ch : Char) : List Char → Nat
  | [] => 0
  | c :: rest => if c = ch then runLen ch rest + 1 else 0

/-- Try to match `ch\x7b3,\x7dnewline` greedily at the start of `cs`
(the separator body after its leading newline); returns the remainder
after the trailing newline. -/
def sepTry (ch : Char) (cs : List Char) : Option (List Char) :=
  if 3 ≤ runLen ch cs then
    if (cs.drop (runLen ch cs)).head? = some '\n' then
      some ((cs.drop (runLen ch cs)).tail)
    else none
  else none

/-- The alternation `\n---+\n|\n\*\*\*+\n|\n___+\n` after its
leading newline has been consumed. -/
def matchSepAfterNL (cs : List Char) : Option (List Char) :=
  match sepTry '-' cs with
  | some r => some r
  | none =>
    match sepTry '*' cs with
    | some r => some r
    | none => sepTry '_' cs

theorem sepTry_length (ch : Char) (cs r : List Char)
    (h : sepTry ch cs = some r) : r.length < cs.length := by
  unfold sepTry at h
  by_cases h3 : 3 ≤ runLen ch cs
  · rw [if_pos h3] at h
    by_cases hh : (cs.drop (runLen ch cs)).head? = some '\n'
    · rw [if_pos hh] at h
      have hr : r = (cs.drop (runLen ch cs)).tail := by
        injection h with h1
        exact h1.symm
      have hnonnil : cs.drop (runLen ch cs) ≠ [] := by
        intro hnil
        rw [hnil] at hh
        simp at hh
      have h4 : 0 < (cs.drop (runLen ch cs)).length := List.length_pos.mpr hnonnil
      have h5 : (cs.drop (runLen ch cs)).length = cs.length - runLen ch cs := by
        simp
      have h6 : r.length = (cs.drop (runLen ch cs)).length - 1 := by
        rw [hr, List.length_tail]
      omega
    · rw [if_neg hh] at h
      simp at h
  · rw [if_neg h3] at h
    simp at h

theorem matchSepAfterNL_length (cs r : List Char)
    (h : matchSepAfterNL cs = some r) : r.length < cs.length := by
  unfold matchSepAfterNL at h
  cases hd : sepTry '-' cs with
  | some r2 =>
    rw [hd] at h
    injection h with h1
    subst h1
    exact sepTry_length _ cs _ hd
  | none =>
    rw [hd] at h
    cases hs : sepTry '*' cs with
    | some r2 =>
      rw [hs] at h
      injection h with h1
      subst h1
      exact sepTry_length _ cs _ hs
    | none =>
      rw [hs] at h
      exact sepTry_length _ cs _ h

/-- The regex-split scan on the whole text: at every newline, try to
match a separator (whose trailing newline is part of the match); `acc`
holds the current segment reversed. -/
def sepAux (cs acc : List Char) : List (List Char) :=
  match cs with
  | [] => [acc.reverse]
  | c :: rest =>
    if c = '\n' then
      match hm : matchSepAfterNL rest with
      | some rest2 => acc.reverse :: sepAux rest2 []
      | none => sepAux rest ('\n' :: acc)
    else sepAux rest (c :: acc)
termination_by cs.length
decreasing_by
  · have := matchSepAfterNL_length rest rest2 hm
    simp only [List.length_cons]
    omega
  · simp
  · simp

def sepSplit (cs : List Char) : List (List Char) := sepAux cs []

/-- The two fallback reassignments of `splitEssaysText`
(EssayEvaluator.jsx 1357-1363): state after the blank-line fallback. -/
def splitEssaysTextMid (text : List Char) : List (List Char) :=
  if ¬ (markerPhase text).2 ∨ (markerPhase text).1.length ≤ 1 then
    (blankSplit text).filter (fun e => decide (100 < (jsTrim e).length))
  else (markerPhase text).1

/-- `splitEssaysText` (EssayEvaluator.jsx 1337-1365). -/
def splitEssaysText (text : List Char) : List (List Char) :=
  if (splitEssaysTextMid text).length ≤ 1 ∧ 10000 < text.length then
    (sepSplit text).filter (fun e => decide (100 < (jsTrim e).length))
  else splitEssaysTextMid text

theorem dropWhile_idem (p : Char → Bool) (l : List Char) :
    (l.dropWhile p).dropWhile p = l.dropWhile p := by
  induction l with
  | nil => simp
  | cons a rest ih =>
    by_cases hp : p a
    · simp [List.dropWhile_cons, hp, ih]
    · simp [List.dropWhile_cons, hp]

theorem dropWhile_head_not (p : Char → Bool) :
    ∀ (l : List Char) (c : Char) (t : List Char),
      l.dropWhile p = c :: t → ¬ p c = true := by
  intro l
  induction l with
  | nil => intro c t h; simp at h
  | cons a rest ih =>
    intro c t h
    by_cases hp : p a
    · rw [List.dropWhile_cons, if_pos hp] at h
      exact ih c t h
    · rw [List.dropWhile_cons, if_neg hp] at h
      injection h with h1 h2
      subst h1
      exact hp

/-- Trimming is idempotent. -/
theorem jsTrim_idem (l : List Char) : jsTrim (jsTrim l) = jsTrim l := by
  unfold jsTrim
  set A := l.dropWhile jsWS with hA
  set B := A.reverse.dropWhile jsWS with hB
  have h1 : B.reverse.dropWhile jsWS = B.reverse := by
    cases hrb : B.reverse with
    | nil => simp
    | cons c t =>
      have hsuf : B <:+ A.reverse := by
        rw [hB]; exact List.dropWhile_suffix jsWS
      have hpre : B.reverse <+: A := by
        have h2 : B.reverse <+: A.reverse.reverse := List.reverse_prefix.mpr hsuf
        rwa [List.reverse_reverse] at h2
      obtain ⟨s, hs⟩ := hpre
      have hAc : A = c :: (t ++ s) := by
        rw [← hs, hrb]; simp
      have hnp : ¬ jsWS c = true :=
        dropWhile_head_not jsWS l c (t ++ s) (by rw [← hA]; exact hAc)
      rw [List.dropWhile_cons, if_neg hnp]
  rw [h1, List.reverse_reverse, hB, dropWhile_idem]

theorem markerStep_essays (st : MState) (line : List Char) :
    ((markerStep st line).essays ≠ st.essays ↔
      (isMarkerLine line = true ∧ jsTrim st.cur ≠ [])) ∧
    ((markerStep st line).essays ≠ st.essays →
      (markerStep st line).essays = st.essays ++ [jsTrim st.cur]) := by
  unfold markerStep
  by_cases hguard : (isMarkerLine line && !(jsTrim st.cur).isEmpty) = true
  · rw [if_pos hguard]
    have hg := hguard
    rw [Bool.and_eq_true] at hg
    constructor
    · constructor
      · intro _
        exact ⟨hg.1, by simpa using hg.2⟩
      · intro _
        show st.essays ++ [jsTrim st.cur] ≠ st.essays
        intro h
        have := congrArg List.length h
        simp at this
    · intro _
      rfl
  · rw [if_neg hguard]
    constructor
    · constructor
      · intro h
        exact absurd rfl h
      · rintro ⟨h1, h2⟩
        exfalso
        apply hguard
        rw [Bool.and_eq_true]
        exact ⟨h1, by simpa using h2⟩
    · intro h
      exact absurd rfl h

theorem markerScan_segments (lines : List (List Char)) :
    ∀ st : MState, (∀ e ∈ st.essays, jsTrim e = e ∧ e ≠ []) →
      ∀ e ∈ (lines.foldl markerStep st).essays, jsTrim e = e ∧ e ≠ [] := by
  induction lines with
  | nil => intro st h; simpa using h
  | cons line rest ih =>
    intro st h
    rw [List.foldl_cons]
    apply ih
    intro e he
    unfold markerStep at he
    by_cases hguard : (isMarkerLine line && !(jsTrim st.cur).isEmpty) = true
    · rw [if_pos hguard] at he
      rcases List.mem_append.mp he with h1 | h1
      · exact h e h1
      · rw [List.mem_singleton] at h1
        subst h1
        refine ⟨jsTrim_idem st.cur, ?_⟩
        have hg2 := hguard
        rw [Bool.and_eq_true] at hg2
        have h2 := hg2.2
        simpa using h2
    · rw [if_neg hguard] at he
      exact h e he

theorem markerPhase_segments (text : List Char) :
    ∀ e ∈ (markerPhase text).1, jsTrim e = e ∧ e ≠ [] := by
  intro e he
  unfold markerPhase at he
  by_cases hfin : (!(jsTrim (markerScan text).cur).isEmpty) = true
  · rw [if_pos hfin] at he
    rcases List.mem_append.mp he with h1 | h1
    · exact markerScan_segments (splitNL text) (MState.mk [] [] false) (by simp) e h1
    · rw [List.mem_singleton] at h1
      subst h1
      exact ⟨jsTrim_idem _, by simpa using hfin⟩
  · rw [if_neg hfin] at he
    exact markerScan_segments (splitNL text) (MState.mk [] [] false) (by simp) e he

/-- C7 (amended): a line starts a new essay segment iff it CONTAINS one
of the case-insensitive markers anywhere in the line (the regexes are
unanchored, so a mid-line marker also splits) and the accumulator holds
non-whitespace content; the pushed segment is the trimmed accumulator, so
the very first marker never creates an empty leading essay and each
completed segment is trimmed (trimming it again is the identity) and
non-empty. -/
theorem markerSplit_semantics :
    (∀ (st : MState) (line : List Char),
      ((markerStep st line).essays ≠ st.essays ↔
        (isMarkerLine line = true ∧ jsTrim st.cur ≠ []))) ∧
    (∀ (st : MState) (line : List Char),
      (markerStep st line).essays ≠ st.essays →
      (markerStep st line).essays = st.essays ++ [jsTrim st.cur]) ∧
    (∀ text : List Char, ∀ e ∈ (markerPhase text).1, jsTrim e = e ∧ e ≠ []) :=
  ⟨fun st line => (markerStep_essays st line).1,
   fun st line => (markerStep_essays st line).2,
   markerPhase_segments⟩

theorem markerSplit_semantics_witness :
    (markerStep (MState.mk [] (String.data "essay" ++ ['\n']) false)
      (String.data "xx Name: Bob")).essays ≠ [] := by
  have h := (markerSplit_semantics.1
    (MState.mk [] (String.data "essay" ++ ['\n']) false)
    (String.data "xx Name: Bob")).mpr ⟨by decide, by decide⟩
  exact h

/-- C7 counterexample: in this blob no line STARTS with a marker, yet the
code splits at the mid-line `Name:` — refuting the claimed
start-of-line-only behaviour. -/
theorem markerSplit_counterexample :
    ((splitNL (String.data "first essay\nxx Name: Bob\nrest")).all
      (fun l => !(lineStartsWithMarker l))) = true ∧
    splitEssaysText (String.data "first essay\nxx Name: Bob\nrest")
      = [String.data "first essay", String.data "xx Name: Bob\nrest"] := by
  refine ⟨by decide, by decide⟩

theorem blankAux_noTriple (cs : List Char) :
    ∀ (pend : Nat) (acc : List Char), pend ≤ 2 →
      ¬ (['\n', '\n', '\n'] <:+: (List.replicate pend '\n' ++ cs)) →
      blankAux cs pend acc = [acc.reverse ++ List.replicate pend '\n' ++ cs] := by
  induction cs with
  | nil =>
    intro pend acc hp ht
    simp only [blankAux]
    rw [if_neg (by omega)]
    simp
  | cons c rest ih =>
    intro pend acc hp ht
    simp only [blankAux]
    by_cases hc : c = '\n'
    · rw [if_pos hc]
      subst hc
      have hp1 : pend + 1 ≤ 2 := by
        by_contra hcon
        have hpend2 : pend = 2 := by omega
        subst hpend2
        exact ht ⟨[], rest, rfl⟩
      have heq : List.replicate (pend + 1) '\n' ++ rest
          = List.replicate pend '\n' ++ '\n' :: rest := by
        rw [List.replicate_succ']
        simp
      have ht1 : ¬ (['\n', '\n', '\n'] <:+:
          (List.replicate (pend + 1) '\n' ++ rest)) := by
        intro hcon
        apply ht
        rwa [heq] at hcon
      have heq2 : acc.reverse ++ List.replicate (pend + 1) '\n' ++ rest
          = acc.reverse ++ List.replicate pend '\n' ++ '\n' :: rest := by
        rw [List.replicate_succ']
        simp
      rw [ih (pend + 1) acc hp1 ht1, heq2]
    · rw [if_neg hc, if_neg (by omega)]
      have ht2 : ¬ (['\n', '\n', '\n'] <:+: (List.replicate 0 '\n' ++ rest)) := by
        simp only [List.replicate_zero, List.nil_append]
        intro hcon
        apply ht
        obtain ⟨s, t, hst⟩ := hcon
        exact ⟨List.replicate pend '\n' ++ c :: s, t, by rw [← hst]; simp⟩
      rw [ih 0 (c :: (List.replicate pend '\n' ++ acc)) (by omega) ht2]
      simp [List.reverse_cons, List.reverse_append, List.append_assoc]

theorem blankSplit_noTriple (text : List Char)
    (h : ¬ (['\n', '\n', '\n'] <:+: text)) : blankSplit text = [text] := by
  unfold blankSplit
  rw [blankAux_noTriple text 0 [] (by omega) (by simpa using h)]
  simp

/-- C1 (amended): when no splitting heuristic yields two or more segments
— no marker split, no run of 3+ newlines, text within the 10000-character
bound — the output is the single-element full-blob list ONLY when the
trimmed blob exceeds 100 characters; otherwise the output is EMPTY, so a
non-empty blob can segment to zero essays. -/
theorem splitEssaysText_degenerate (text : List Char)
    (hnm : ¬ (markerPhase text).2 ∨ (markerPhase text).1.length ≤ 1)
    (htriple : ¬ (['\n', '\n', '\n'] <:+: text))
    (hlen : text.length ≤ 10000) :
    splitEssaysText text
      = if 100 < (jsTrim text).length then [text] else [] := by
  have hbs : blankSplit text = [text] := blankSplit_noTriple text htriple
  have hmid : splitEssaysTextMid text
      = if 100 < (jsTrim text).length then [text] else [] := by
    unfold splitEssaysTextMid
    rw [if_pos hnm, hbs]
    by_cases hc : 100 < (jsTrim text).length
    · rw [if_pos hc]
      simp [hc]
    · rw [if_neg hc]
      simp [hc]
  unfold splitEssaysText
  rw [hmid]
  rw [if_neg (fun hcon => absurd hcon.2 (by omega))]

theorem splitEssaysText_degenerate_witness :
    splitEssaysText (String.data "hi") = [] := by
  have h := splitEssaysText_degenerate (String.data "hi")
    (by decide) (by decide) (by decide)
  rw [if_neg (by decide)] at h
  exact h

/-- C1 counterexample: the non-empty blob `hello` (no markers, short)
yields the EMPTY list — the blank-line fallback replaces the single
marker-phase segment and then filters it out (trimmed length ≤ 100) — so
segmentation of a non-empty blob can produce zero essays and the
degenerate case is not the single-element full-blob list. -/
theorem splitEssaysText_counterexample :
    splitEssaysText (String.data "hello") = [] ∧ String.data "hello" ≠ [] := by
  refine ⟨by decide, by decide⟩

end TextSegmenter

end EssayEval
